import Mathlib

/-!
# Verification of the `ud_search` neighbor-extraction pipeline

Shallow embedding of the two Python sources:

* `code/extract_neighborhood_genes.py` — stage 1: parse genes of interest
  (GOIs) from FASTA headers, build an annotation index from a directory walk
  of `.gff` files, and report features whose midpoint falls in a symmetric
  window around each GOI's midpoint.
* `code/summarize_results.py` — stage 2: aggregate the flat neighbor table
  into strain-centric and gene-centric summary tables.

Lines of text and CSV fields are modelled as `List Char` (string
comparisons are code-point lexicographic in both Python and this order).
Python exceptions are modelled with `Except`; the
presence or absence of a `try`/`except` handler in the source determines
whether a failure surfaces as a clean abort or an unhandled fault.
-/

namespace UdSearch

/-! ## Character/string utilities shared by the stage-1 parsers -/

/-- The whitespace characters stripped by Python's `str.strip()`
(restricted to the ASCII whitespace actually relevant to these inputs). -/
def isSpaceChar (c : Char) : Bool :=
  c = ' ' || c = '\t' || c = '\n' || c = '\r' || c = '\x0B' || c = '\x0C'

/-- Python `line.strip()`: drop whitespace from both ends. -/
def strip (l : List Char) : List Char :=
  ((l.dropWhile isSpaceChar).reverse.dropWhile isSpaceChar).reverse

/-- Python `str.split(sep)` for a single-character separator:
`"a,,b".split(",") = ["a","","b"]`, `"".split(",") = [""]`. -/
def splitOnChar (sep : Char) : List Char → List (List Char)
  | [] => [[]]
  | c :: rest =>
    match splitOnChar sep rest with
    | [] => if c = sep then [[], []] else [[c]]
    | h :: t => if c = sep then [] :: h :: t else (c :: h) :: t

/-- Worker for `splitOnTok`; the fuel (at least the list's length) makes
the recursion structural. -/
def splitOnTokGo (t0 : Char) (ts : List Char) : Nat → List Char → List (List Char)
  | _, [] => [[]]
  | 0, l => [l]
  | fuel + 1, c :: rest =>
    if (t0 :: ts).isPrefixOf (c :: rest) then
      [] :: splitOnTokGo t0 ts fuel ((c :: rest).drop (ts.length + 1))
    else
      match splitOnTokGo t0 ts fuel rest with
      | [] => [[c]]
      | h :: t => (c :: h) :: t

/-- Python `str.split(tok)` for a non-empty multi-character separator
`t0 :: ts`: non-overlapping occurrences, scanned left to right. -/
def splitOnTok (t0 : Char) (ts : List Char) (l : List Char) : List (List Char) :=
  splitOnTokGo t0 ts l.length l

/-- Text strictly before the first occurrence of token `t0 :: ts`
(the whole list if the token does not occur). -/
def beforeFirstTok (t0 : Char) (ts : List Char) : List Char → List Char
  | [] => []
  | c :: rest =>
    if (t0 :: ts).isPrefixOf (c :: rest) then []
    else c :: beforeFirstTok t0 ts rest

/-- Text strictly after the first occurrence of token `t0 :: ts`,
`none` if the token does not occur. -/
def afterFirstTok (t0 : Char) (ts : List Char) : List Char → Option (List Char)
  | [] => none
  | c :: rest =>
    if (t0 :: ts).isPrefixOf (c :: rest) then
      some ((c :: rest).drop (ts.length + 1))
    else afterFirstTok t0 ts rest

/-- Value of a decimal digit string, as Python's `int()` computes it. -/
def digitsToNat (l : List Char) : Nat :=
  l.foldl (fun a c => 10 * a + (c.toNat - 48)) 0

/-- Python `int(s)` on a string: strip whitespace, optional sign, then a
non-empty run of decimal digits; `none` models the `ValueError` raised
otherwise. -/
def parseInt? (l : List Char) : Option Int :=
  match strip l with
  | '-' :: ds =>
    if ds ≠ [] ∧ ds.all Char.isDigit then some (-(digitsToNat ds : Int)) else none
  | '+' :: ds =>
    if ds ≠ [] ∧ ds.all Char.isDigit then some ((digitsToNat ds : Int)) else none
  | ds =>
    if ds ≠ [] ∧ ds.all Char.isDigit then some ((digitsToNat ds : Int)) else none

/-! ## Stage 1: FASTA header parsing (`parse_goi_fasta`, lines 14–41)

The header regex is
`>([^|]+)\|contig=([^|]+)\|.*?SubjectStart=(\d+)_SubjectEnd=(\d+)`,
applied with `re.search`.  The embedding below implements exactly this
pattern: `search` tries every start position left to right; `[^|]+`
followed by `\|` is deterministic (maximal run of non-bar characters);
the lazy `.*?` takes the earliest position at which the rest of the
pattern matches. -/

/-- Try `SubjectStart=(\d+)_SubjectEnd=(\d+)` exactly at the head of `l`,
returning the two digit groups. -/
def subjectAt (l : List Char) : Option (List Char × List Char) :=
  if "SubjectStart=".toList.isPrefixOf l then
    let l2 := l.drop 13
    let d1 := l2.takeWhile Char.isDigit
    if d1 = [] then none
    else
      let l3 := l2.dropWhile Char.isDigit
      if "_SubjectEnd=".toList.isPrefixOf l3 then
        let d2 := (l3.drop 12).takeWhile Char.isDigit
        if d2 = [] then none else some (d1, d2)
      else none
  else none

/-- `.*?SubjectStart=(\d+)_SubjectEnd=(\d+)`: earliest match in `l`. -/
def matchSubject : List Char → Option (List Char × List Char)
  | [] => none
  | c :: rest =>
    match subjectAt (c :: rest) with
    | some r => some r
    | none => matchSubject rest

/-- Try the full header pattern exactly at the head of `l`, returning the
four capture groups (strain, contig, raw start digits, raw end digits). -/
def matchHeaderAt (l : List Char) : Option (List Char × List Char × List Char × List Char) :=
  match l with
  | '>' :: r1 =>
    let strain := r1.takeWhile (fun c => c ≠ '|')
    if strain = [] then none
    else
      match r1.dropWhile (fun c => c ≠ '|') with
      | '|' :: r2 =>
        if "contig=".toList.isPrefixOf r2 then
          let r3 := r2.drop 7
          let contig := r3.takeWhile (fun c => c ≠ '|')
          if contig = [] then none
          else
            match r3.dropWhile (fun c => c ≠ '|') with
            | '|' :: r4 =>
              (matchSubject r4).map (fun p => (strain, contig, p.1, p.2))
            | _ => none
        else none
      | _ => none
  | _ => none

/-- `re.search` of the header pattern: try every start position. -/
def searchHeader : List Char → Option (List Char × List Char × List Char × List Char)
  | [] => none
  | c :: rest =>
    match matchHeaderAt (c :: rest) with
    | some r => some r
    | none => searchHeader rest

/-- A gene of interest, as stored by `parse_goi_fasta` (lines 30–36).
`stop` embeds the Python dict key `"end"` (a Lean keyword). -/
structure GOI where
  strain : List Char
  contig : List Char
  start : Int
  stop : Int
  header : List Char
deriving DecidableEq, Repr

/-- `parse_goi_fasta` (lines 14–41), applied to the file's lines (newline
terminators removed): header lines (`startswith(">")`) that match the regex
become GOIs with order-normalized coordinates; non-matching header lines are
dropped with a warning; non-header lines are ignored. -/
def parse_goi_fasta (lines : List (List Char)) : List GOI :=
  lines.filterMap (fun line =>
    if line.head? = some '>' then
      match searchHeader line with
      | some (st, c, d1, d2) =>
        some { strain := st, contig := c,
               start := min ((digitsToNat d1 : Nat) : Int) ((digitsToNat d2 : Nat) : Int),
               stop := max ((digitsToNat d1 : Nat) : Int) ((digitsToNat d2 : Nat) : Int),
               header := strip line }
      | none => none
    else none)

/-! ## Stage 1: GFF parsing (`parse_gff`, lines 43–86) -/

/-- An annotation feature (lines 78–85).  `ftype` embeds the dict key
`"type"`, `stop` embeds `"end"`. -/
structure Feature where
  ftype : List Char
  start : Int
  stop : Int
  strand : List Char
  id : List Char
  product : List Char
deriving DecidableEq, Repr

/-- Attribute extraction (lines 73–76):
`attributes_str.split(tok)[1].split(";")[0]` guarded by
`tok in attributes_str`, with sentinel `"N/A"` when the token is absent.
The containment test `tok in s` is equivalent to `s.split(tok)` having at
least two parts. -/
def extractAttr (t0 : Char) (ts : List Char) (attrs : List Char) : List Char :=
  match splitOnTok t0 ts attrs with
  | _ :: second :: _ => (splitOnChar ';' second).headD []
  | _ => "N/A".toList

/-- Decidable equality of `Except` results, to state parser outcomes on
concrete inputs. -/
instance {ε α : Type} [DecidableEq ε] [DecidableEq α] : DecidableEq (Except ε α) :=
  fun x y =>
    match x, y with
    | .error a, .error b =>
      decidable_of_iff (a = b) ⟨fun h => by rw [h], fun h => by cases h; rfl⟩
    | .ok a, .ok b =>
      decidable_of_iff (a = b) ⟨fun h => by rw [h], fun h => by cases h; rfl⟩
    | .error _, .ok _ => isFalse (fun h => by cases h)
    | .ok _, .error _ => isFalse (fun h => by cases h)

/-- Per-contig feature lists, keyed in first-insertion order
(`defaultdict(list)`). -/
abbrev ContigDb : Type := List (List Char × List Feature)

/-- Assoc-list lookup with decidable equality (Python `dict` lookup /
`in` test; keys are unique by construction). -/
def lookupL {β : Type} : List (List Char × β) → List Char → Option β
  | [], _ => none
  | (k, v) :: rest, k' => if k = k' then some v else lookupL rest k'

/-- `contig_db[contig].append(feature)` on a `defaultdict(list)`. -/
def addFeature (db : ContigDb) (c : List Char) (f : Feature) : ContigDb :=
  match db with
  | [] => [(c, [f])]
  | (k, fs) :: rest =>
    if k = c then (k, fs ++ [f]) :: rest else (k, fs) :: addFeature rest c f

/-- What `parse_gff`'s loop body does with one line: skip it, append a
feature, or raise (`int()` on a non-integer start/end, line 64–65). -/
inductive LineAct where
  | skip : LineAct
  | add : List Char → Feature → LineAct
  | err : LineAct
deriving DecidableEq

/-- The loop body of `parse_gff` (lines 50–85): comments and blank lines
are skipped; the stripped line is split on tabs; rows with fewer than 9
fields are skipped; only `gene`/`CDS` rows are kept; their start/end go
through `int()` (which can raise); `ID=`/`product=` values are extracted
from the attribute text with `"N/A"` sentinels. -/
def gffLineAct (line : List Char) : LineAct :=
  if line.head? = some '#' ∨ strip line = [] then .skip
  else
    let parts := splitOnChar '\t' (strip line)
    if parts.length < 9 then .skip
    else
      let ftype := parts.getD 2 []
      if ftype = "gene".toList ∨ ftype = "CDS".toList then
        match parseInt? (parts.getD 3 []), parseInt? (parts.getD 4 []) with
        | some s, some e =>
          .add (parts.getD 0 [])
            { ftype := ftype, start := s, stop := e,
              strand := parts.getD 6 [],
              id := extractAttr 'I' "D=".toList (parts.getD 8 []),
              product := extractAttr 'p' "roduct=".toList (parts.getD 8 []) }
        | _, _ => .err
      else .skip

/-- The loop of `parse_gff`: an unhandled `ValueError` aborts the whole
parse, carrying the offending line. -/
def parse_gff_aux : List (List Char) → ContigDb → Except (List Char) ContigDb
  | [], db => .ok db
  | line :: rest, db =>
    match gffLineAct line with
    | .skip => parse_gff_aux rest db
    | .add c f => parse_gff_aux rest (addFeature db c f)
    | .err => .error line

/-- `parse_gff` (lines 43–86) on the file's lines. -/
def parse_gff (lines : List (List Char)) : Except (List Char) ContigDb :=
  parse_gff_aux lines []

/-! ## Stage 1: annotation index builder (`load_all_annotations`, lines 88–109)

`os.walk` is modelled by its observable output: a sequence of
(directory base name, file name, file lines) triples, in walk order.
For every file whose name ends in `.gff` the code executes
`annotations_db[strain_id] = parse_gff(gff_path)` — a plain dict
assignment keyed by the parent directory's base name. -/

/-- One file met during the `os.walk`: the base name of its directory
(`os.path.basename(root)`), its file name, and its lines. -/
structure WalkEntry where
  dir : List Char
  fname : List Char
  content : List (List Char)

/-- The master annotation index: strain id → contig db. -/
abbrev AnnIndex : Type := List (List Char × ContigDb)

/-- Python `db[k] = v`: replace the value at `k`, or append a new key. -/
def setStrain (db : AnnIndex) (k : List Char) (v : ContigDb) : AnnIndex :=
  match db with
  | [] => [(k, v)]
  | (k', v') :: rest =>
    if k' = k then (k', v) :: rest else (k', v') :: setStrain rest k v

/-- The walk loop of `load_all_annotations` (lines 98–106); an exception
escaping `parse_gff` propagates (there is no handler). -/
def load_all_aux : List WalkEntry → AnnIndex → Except (List Char) AnnIndex
  | [], db => .ok db
  | e :: rest, db =>
    if ".gff".toList.isSuffixOf e.fname then
      match parse_gff e.content with
      | .error l => .error l
      | .ok cdb => load_all_aux rest (setStrain db e.dir cdb)
    else load_all_aux rest db

/-- `load_all_annotations` (lines 88–109). -/
def load_all_annotations (walk : List WalkEntry) : Except (List Char) AnnIndex :=
  load_all_aux walk []

/-- The content of the last `.gff` file in the walk whose directory base
name is `s` (the file whose parse the final index actually retains). -/
def lastGffFor : List WalkEntry → List Char → Option (List (List Char))
  | [], _ => none
  | e :: rest, s =>
    match lastGffFor rest s with
    | some c => some c
    | none =>
      if ".gff".toList.isSuffixOf e.fname ∧ e.dir = s then some e.content
      else none

/-! ## Stage 1: neighbor finder (`find_neighbors`, lines 111–171) -/

/-- One output row of stage 1 (lines 157–169).  `goi_stop`/`neighbor_stop`
embed the `"goi_end"`/`"neighbor_end"` keys. -/
structure NeighborRecord where
  goi_strain : List Char
  goi_contig : List Char
  goi_start : Int
  goi_stop : Int
  goi_header : List Char
  neighbor_id : List Char
  neighbor_type : List Char
  neighbor_start : Int
  neighbor_stop : Int
  neighbor_strand : List Char
  neighbor_product : List Char
deriving DecidableEq, Repr

/-- The record appended for a matching (GOI, feature) pair (lines 157–169). -/
def mkRecord (goi : GOI) (g : Feature) : NeighborRecord :=
  { goi_strain := goi.strain, goi_contig := goi.contig,
    goi_start := goi.start, goi_stop := goi.stop, goi_header := goi.header,
    neighbor_id := g.id, neighbor_type := g.ftype,
    neighbor_start := g.start, neighbor_stop := g.stop,
    neighbor_strand := g.strand, neighbor_product := g.product }

/-- `goi_center = (goi_start + goi_end) / 2` (line 136); Python's `/` is
real division, embedded in `ℚ`. -/
def goiCenter (goi : GOI) : ℚ := ((goi.start : ℚ) + (goi.stop : ℚ)) / 2

/-- `gene_center = (gene_start + gene_end) / 2` (line 153). -/
def featCenter (g : Feature) : ℚ := ((g.start : ℚ) + (g.stop : ℚ)) / 2

/-- The window test of lines 137–138 and 155:
`window_start <= gene_center <= window_end`. -/
def inWindow (goi : GOI) (w : Int) (g : Feature) : Prop :=
  goiCenter goi - (w : ℚ) ≤ featCenter g ∧ featCenter g ≤ goiCenter goi + (w : ℚ)

/-- Deciding the window test through the equivalent integer inequality
(clearing the division by 2), so that it evaluates on concrete inputs. -/
instance (goi : GOI) (w : Int) (g : Feature) : Decidable (inWindow goi w g) :=
  decidable_of_iff
    (goi.start + goi.stop - 2 * w ≤ g.start + g.stop ∧
      g.start + g.stop ≤ goi.start + goi.stop + 2 * w)
    (by
      unfold inWindow goiCenter featCenter
      constructor
      · rintro ⟨h1, h2⟩
        constructor
        · have h1q : ((goi.start : ℚ) + goi.stop - 2 * w ≤ g.start + g.stop) := by
            exact_mod_cast h1
          linarith
        · have h2q : ((g.start : ℚ) + g.stop ≤ goi.start + goi.stop + 2 * w) := by
            exact_mod_cast h2
          linarith
      · rintro ⟨h1, h2⟩
        constructor
        · have h1q : ((goi.start : ℚ) + goi.stop - 2 * w ≤ g.start + g.stop) := by
            linarith
          exact_mod_cast h1q
        · have h2q : ((g.start : ℚ) + g.stop ≤ goi.start + goi.stop + 2 * w) := by
            linarith
          exact_mod_cast h2q)

/-- The inner loop of `find_neighbors` for one GOI (lines 117–169):
skip the GOI when its strain or contig is absent from the index
(lines 124–133); otherwise keep every feature on the contig that is not
coordinate-identical to the GOI (lines 147–149) and whose center lies in
the window (line 155). -/
def neighborsFor (db : AnnIndex) (w : Int) (goi : GOI) : List NeighborRecord :=
  match lookupL db goi.strain with
  | none => []
  | some sdb =>
    match lookupL sdb goi.contig with
    | none => []
    | some genes =>
      (genes.filter (fun g =>
        (!(g.start = goi.start ∧ g.stop = goi.stop : Bool)) &&
          decide (inWindow goi w g))).map (mkRecord goi)

/-- `find_neighbors` (lines 111–171). -/
def find_neighbors (gois : List GOI) (db : AnnIndex) (w : Int) :
    List NeighborRecord :=
  gois.flatMap (neighborsFor db w)

/-! ## Stage entry points and their error behaviour

A fallible file read is modelled as an `Option` of the file's contents:
`none` is a missing/unreadable file, whose `open` raises in Python. -/

/-- How a stage invocation ends. -/
inductive StageOutcome (α : Type) where
  | ok : α → StageOutcome α
  | abortedCleanly : StageOutcome α
  | unhandledFault : StageOutcome α
deriving DecidableEq

/-- `main` of `extract_neighborhood_genes.py` (lines 196–234):
`parse_goi_fasta` opens the FASTA file with no `try` handler anywhere on
the stack (lines 20, 225), so a missing file raises an unhandled
`FileNotFoundError`; likewise an unhandled `ValueError` escaping
`parse_gff` during `load_all_annotations` (lines 64–65, 106, 228). -/
def stage1_run (fastaFile : Option (List (List Char))) (walk : List WalkEntry)
    (w : Int) : StageOutcome (List NeighborRecord) :=
  match fastaFile with
  | none => .unhandledFault
  | some lines =>
    match load_all_annotations walk with
    | .error _ => .unhandledFault
    | .ok db => .ok (find_neighbors (parse_goi_fasta lines) db w)

/-! ## Stage 2: summarizer (`summarize_results.py`, `summarize_neighbors`)

Stage 2 reads the neighbor CSV with `csv.DictReader` and uses only the
`goi_strain` and `neighbor_id` fields of each row (lines 23–31), so a row
is embedded as those two fields; `row.get` yields `none` when the column
is absent and an empty cell when it is present but empty.

The accumulators are `defaultdict(set)` maps (lines 14–16); since the
output iterates `sorted(dict.items())` and sorts every member list, the
emitted tables depend only on the collection of valid
`(goi_strain, neighbor_id)` pairs.  The maps are embedded accordingly:
a key set / member set is the sorted deduplication of the corresponding
projection of the valid-pair list. -/

/-- A CSV cell value. -/
abbrev Cell : Type := List Char

/-- One input row of stage 2, restricted to the two fields the code reads. -/
structure Row where
  goi_strain : Option Cell
  neighbor_id : Option Cell
deriving DecidableEq

/-- Python truthiness of `row.get(...)`: `None` and `""` are falsy. -/
def truthy : Option Cell → Bool
  | none => false
  | some s => s ≠ ([] : List Char)

/-- The pair a row contributes to both groupings, if it passes the
`if strain and neighbor` guard (line 27). -/
def pairKey (r : Row) : Option (Cell × Cell) :=
  if truthy r.goi_strain ∧ truthy r.neighbor_id then
    some (r.goi_strain.getD [], r.neighbor_id.getD [])
  else none

/-- The valid `(goi_strain, neighbor_id)` pairs of the input, in order. -/
def validPairs (rows : List Row) : List (Cell × Cell) :=
  rows.filterMap pairKey

/-- A Python `sorted(some_set)`, for a set accumulated from a list of
insertions: the distinct elements in increasing (lexicographic) order. -/
def sortedDedup (l : List Cell) : List Cell :=
  List.insertionSort (· ≤ ·) l.dedup

/-- `sorted(strain_data.items())` key order (line 60): the distinct
`goi_strain` values of the valid pairs, sorted. -/
def strainKeys (pairs : List (Cell × Cell)) : List Cell :=
  sortedDedup (pairs.map Prod.fst)

/-- `sorted(list(neighbors_set))` for one strain (line 61). -/
def neighborsOfStrain (pairs : List (Cell × Cell)) (s : Cell) : List Cell :=
  sortedDedup ((pairs.filter (fun p => p.1 = s)).map Prod.snd)

/-- `max(len(genes) for genes in strain_data.values())` (line 49). -/
def maxNeighborCount (pairs : List (Cell × Cell)) : Nat :=
  (strainKeys pairs).foldl (fun m s => max m (neighborsOfStrain pairs s).length) 0

/-- The strain-centric header row (lines 52–53). -/
def strainHeaderRow (pairs : List (Cell × Cell)) : List Cell :=
  "Strain".toList :: "Neighbor_Count".toList ::
    (List.range (maxNeighborCount pairs)).map
      (fun i => "Neighbor_".toList ++ (toString (i + 1)).toList)

/-- One strain-centric data row (lines 60–67): key, member count, sorted
members, right-padded with empty cells. -/
def strainDataRow (pairs : List (Cell × Cell)) (s : Cell) : List Cell :=
  s :: (toString (neighborsOfStrain pairs s).length).toList ::
    (neighborsOfStrain pairs s ++
      List.replicate (maxNeighborCount pairs - (neighborsOfStrain pairs s).length) ([] : Cell))

/-- The full strain-centric CSV (header plus data rows), lines 49–67. -/
def strainTable (pairs : List (Cell × Cell)) : List (List Cell) :=
  strainHeaderRow pairs :: (strainKeys pairs).map (strainDataRow pairs)

/-- `sorted(gene_data.items())` key order (line 87). -/
def geneKeys (pairs : List (Cell × Cell)) : List Cell :=
  sortedDedup (pairs.map Prod.snd)

/-- `sorted(list(strains_set))` for one gene (line 88). -/
def strainsOfGene (pairs : List (Cell × Cell)) (n : Cell) : List Cell :=
  sortedDedup ((pairs.filter (fun p => p.2 = n)).map Prod.fst)

/-- `max(len(strains) for strains in gene_data.values())` (line 76). -/
def maxStrainCount (pairs : List (Cell × Cell)) : Nat :=
  (geneKeys pairs).foldl (fun m n => max m (strainsOfGene pairs n).length) 0

/-- The gene-centric header row (lines 79–80). -/
def geneHeaderRow (pairs : List (Cell × Cell)) : List Cell :=
  "Gene_Name".toList :: "Strain_Count".toList ::
    (List.range (maxStrainCount pairs)).map
      (fun i => "Strain_".toList ++ (toString (i + 1)).toList)

/-- One gene-centric data row (lines 87–94). -/
def geneDataRow (pairs : List (Cell × Cell)) (n : Cell) : List Cell :=
  n :: (toString (strainsOfGene pairs n).length).toList ::
    (strainsOfGene pairs n ++
      List.replicate (maxStrainCount pairs - (strainsOfGene pairs n).length) ([] : Cell))

/-- The full gene-centric CSV (header plus data rows), lines 76–94. -/
def geneTable (pairs : List (Cell × Cell)) : List (List Cell) :=
  geneHeaderRow pairs :: (geneKeys pairs).map (geneDataRow pairs)

/-- The aggregation core on the valid pairs: `if not strain_data: return`
(lines 40–42; `strain_data` is empty exactly when no row passed the
validity guard), else the two tables are written. -/
def summarizeOfPairs (pairs : List (Cell × Cell)) :
    Option (List (List Cell) × List (List Cell)) :=
  if pairs = [] then none else some (strainTable pairs, geneTable pairs)

/-- `summarize_neighbors` on successfully-read input rows. -/
def summarize_core (rows : List Row) :
    Option (List (List Cell) × List (List Cell)) :=
  summarizeOfPairs (validPairs rows)

/-- `summarize_neighbors` (lines 7–96) including the file read: the
`try`/`except FileNotFoundError` of lines 20–38 turns a missing input
table into a diagnostic plus a clean `return`. -/
def stage2_run (input : Option (List Row)) :
    StageOutcome (Option (List (List Cell) × List (List Cell))) :=
  match input with
  | none => .abortedCleanly
  | some rows => .ok (summarize_core rows)

/-- Removal of later rows whose valid `(goi_strain, neighbor_id)` pair
already occurred: the "deduplicated input" of the aggregation-idempotence
claim.  Rows without a valid pair are kept as they are. -/
def dedupRows : List Row → List Row
  | [] => []
  | r :: rest =>
    match pairKey r with
    | none => r :: dedupRows rest
    | some p => r :: dedupRows (rest.filter (fun r2 => pairKey r2 ≠ some p))
termination_by l => l.length
decreasing_by
  · simp
  · simpa using Nat.lt_succ_of_le (List.length_filter_le _ _)

/-- The claim's reading of attribute extraction: the text following the
first occurrence of the token anywhere in the field, up to the next `;`
or the end of the field (sentinel when the token is absent). -/
def claimedAttrExtract (t0 : Char) (ts : List Char) (attrs : List Char) : List Char :=
  match afterFirstTok t0 ts attrs with
  | some r => (splitOnChar ';' r).headD []
  | none => "N/A".toList

/-! ## Concrete fixtures used by counterexamples and witnesses -/

/-- A GOI on strain `s`, contig `c`, spanning 10–20. -/
def exGoi : GOI :=
  { strain := "s".toList, contig := "c".toList, start := 10, stop := 20,
    header := "h".toList }

/-- A feature at 30–40 on the same contig. -/
def exFeat : Feature :=
  { ftype := "gene".toList, start := 30, stop := 40, strand := "+".toList,
    id := "g1".toList, product := "p".toList }

/-- A feature coordinate-identical to `exGoi` (10–20) but otherwise
unrelated. -/
def exSelf : Feature :=
  { ftype := "gene".toList, start := 10, stop := 20, strand := "+".toList,
    id := "g2".toList, product := "p".toList }

/-- Index with both features on `exGoi`'s contig. -/
def exDb : AnnIndex := [("s".toList, [("c".toList, [exSelf, exFeat])])]

/-- Index whose only feature is the coordinate-identical one. -/
def exSelfDb : AnnIndex := [("s".toList, [("c".toList, [exSelf])])]

/-- A header whose raw coordinates come reversed. -/
def exHeaderLine : List Char := ">s|contig=c|SubjectStart=20_SubjectEnd=10".toList

/-- A walk meeting two `.gff` files for the same strain directory: the
first file only mentions contig `A`, the second only contig `B`. -/
def exWalk : List WalkEntry :=
  [{ dir := "s".toList, fname := "a.gff".toList,
     content := ["A\tx\tgene\t1\t10\t.\t+\t.\tID=g1".toList] },
   { dir := "s".toList, fname := "b.gff".toList,
     content := ["B\tx\tgene\t5\t15\t.\t+\t.\tID=g2".toList] }]

/-- The index `exWalk` actually produces: only the second file's parse. -/
def exWalkDb : AnnIndex :=
  [("s".toList,
    [("B".toList,
      [{ ftype := "gene".toList, start := 5, stop := 15, strand := "+".toList,
         id := "g2".toList, product := "N/A".toList }])])]

/-- A well-formed data line except that its start column is not an
integer. -/
def exBadIntLine : List Char := "c\tx\tgene\tabc\t5\t.\t+\t.\tID=g1".toList

/-- A data line with fewer than 9 tab-separated fields. -/
def exShortLine : List Char := "just\ttwo".toList

/-- An attributes field with a second `ID=` before any semicolon. -/
def exAttrField : List Char := "ID=aID=b".toList

/-- A GFF line carrying `exAttrField` as its attributes column. -/
def exAttrLine : List Char := "c\tx\tgene\t1\t10\t.\t+\t.\tID=aID=b".toList

/-- Three valid stage-2 rows over two strains and two neighbor ids. -/
def exRows : List Row :=
  [{ goi_strain := some "s1".toList, neighbor_id := some "n1".toList },
   { goi_strain := some "s1".toList, neighbor_id := some "n2".toList },
   { goi_strain := some "s2".toList, neighbor_id := some "n1".toList }]

/-- A row whose `neighbor_id` field is the empty string. -/
def exRowBad : Row := { goi_strain := some "s1".toList, neighbor_id := some [] }

/-! ## Helper lemmas -/

/-- The initial accumulator is a lower bound of a `foldl max`. -/
theorem init_le_foldl_max {α : Type} (f : α → Nat) :
    ∀ (l : List α) (a : Nat), a ≤ l.foldl (fun m y => max m (f y)) a := by
  intro l
  induction l with
  | nil => intro a; exact Nat.le_refl a
  | cons y t ih =>
    intro a
    exact Nat.le_trans (Nat.le_max_left a (f y)) (ih (max a (f y)))

/-- Every element's value is a lower bound of a `foldl max`. -/
theorem le_foldl_max {α : Type} (f : α → Nat) :
    ∀ (l : List α) (a : Nat) (x : α), x ∈ l →
      f x ≤ l.foldl (fun m y => max m (f y)) a := by
  intro l
  induction l with
  | nil => intro a x hx; cases hx
  | cons y t ih =>
    intro a x hx
    rcases List.mem_cons.mp hx with h | h
    · subst h
      exact Nat.le_trans (Nat.le_max_right a (f x)) (init_le_foldl_max f t (max a (f x)))
    · exact ih (max a (f y)) x h

/-- Two lists with the same members have the same sorted deduplication. -/
theorem sortedDedup_congr {l₁ l₂ : List Cell} (h : ∀ a, a ∈ l₁ ↔ a ∈ l₂) :
    sortedDedup l₁ = sortedDedup l₂ := by
  refine List.eq_of_perm_of_sorted
    ((List.perm_insertionSort _ _).trans (.trans ?_ (List.perm_insertionSort _ _).symm))
    (List.sorted_insertionSort _ _) (List.sorted_insertionSort _ _)
  refine (List.perm_ext_iff_of_nodup (List.nodup_dedup _) (List.nodup_dedup _)).2 ?_
  intro a
  rw [List.mem_dedup, List.mem_dedup]
  exact h a

/-- The two summary tables depend on the valid pairs only through
membership. -/
theorem summarizeOfPairs_congr {p₁ p₂ : List (Cell × Cell)}
    (h : ∀ q, q ∈ p₁ ↔ q ∈ p₂) :
    summarizeOfPairs p₁ = summarizeOfPairs p₂ := by
  have hK : strainKeys p₁ = strainKeys p₂ := by
    refine sortedDedup_congr (fun a => ?_)
    simp only [List.mem_map]
    constructor
    · rintro ⟨q, hq, rfl⟩; exact ⟨q, (h q).mp hq, rfl⟩
    · rintro ⟨q, hq, rfl⟩; exact ⟨q, (h q).mpr hq, rfl⟩
  have hN : ∀ s, neighborsOfStrain p₁ s = neighborsOfStrain p₂ s := by
    intro s
    refine sortedDedup_congr (fun a => ?_)
    simp only [List.mem_map, List.mem_filter]
    constructor
    · rintro ⟨q, ⟨hq, hs⟩, rfl⟩; exact ⟨q, ⟨(h q).mp hq, hs⟩, rfl⟩
    · rintro ⟨q, ⟨hq, hs⟩, rfl⟩; exact ⟨q, ⟨(h q).mpr hq, hs⟩, rfl⟩
  have hG : geneKeys p₁ = geneKeys p₂ := by
    refine sortedDedup_congr (fun a => ?_)
    simp only [List.mem_map]
    constructor
    · rintro ⟨q, hq, rfl⟩; exact ⟨q, (h q).mp hq, rfl⟩
    · rintro ⟨q, hq, rfl⟩; exact ⟨q, (h q).mpr hq, rfl⟩
  have hS : ∀ n, strainsOfGene p₁ n = strainsOfGene p₂ n := by
    intro n
    refine sortedDedup_congr (fun a => ?_)
    simp only [List.mem_map, List.mem_filter]
    constructor
    · rintro ⟨q, ⟨hq, hs⟩, rfl⟩; exact ⟨q, ⟨(h q).mp hq, hs⟩, rfl⟩
    · rintro ⟨q, ⟨hq, hs⟩, rfl⟩; exact ⟨q, ⟨(h q).mpr hq, hs⟩, rfl⟩
  have hMN : maxNeighborCount p₁ = maxNeighborCount p₂ := by
    unfold maxNeighborCount
    rw [hK]
    have : (fun (m : Nat) s => max m (neighborsOfStrain p₁ s).length) =
        (fun (m : Nat) s => max m (neighborsOfStrain p₂ s).length) := by
      funext m s; rw [hN s]
    rw [this]
  have hMS : maxStrainCount p₁ = maxStrainCount p₂ := by
    unfold maxStrainCount
    rw [hG]
    have : (fun (m : Nat) n => max m (strainsOfGene p₁ n).length) =
        (fun (m : Nat) n => max m (strainsOfGene p₂ n).length) := by
      funext m n; rw [hS n]
    rw [this]
  have hST : strainTable p₁ = strainTable p₂ := by
    unfold strainTable strainHeaderRow
    rw [hK, hMN]
    have : strainDataRow p₁ = strainDataRow p₂ := by
      funext s; unfold strainDataRow; rw [hN s, hMN]
    rw [this]
  have hGT : geneTable p₁ = geneTable p₂ := by
    unfold geneTable geneHeaderRow
    rw [hG, hMS]
    have : geneDataRow p₁ = geneDataRow p₂ := by
      funext n; unfold geneDataRow; rw [hS n, hMS]
    rw [this]
  unfold summarizeOfPairs
  by_cases hp : p₁ = []
  · have hp2 : p₂ = [] := by
      rw [List.eq_nil_iff_forall_not_mem] at hp ⊢
      intro a ha; exact hp a ((h a).mpr ha)
    rw [if_pos hp, if_pos hp2]
  · have hp2 : p₂ ≠ [] := by
      intro hc
      apply hp
      rw [List.eq_nil_iff_forall_not_mem] at hc ⊢
      intro a ha; exact hc a ((h a).mp ha)
    rw [if_neg hp, if_neg hp2, hST, hGT]

/-- Valid-pair membership is unchanged when rows whose pair is excluded
by a filter cannot carry that pair. -/
theorem validPairs_filter_ne (rest : List Row) (p q : Cell × Cell) (hq : q ≠ p) :
    q ∈ validPairs (rest.filter (fun r2 => pairKey r2 ≠ some p)) ↔
      q ∈ validPairs rest := by
  unfold validPairs
  rw [List.mem_filterMap, List.mem_filterMap]
  constructor
  · rintro ⟨r, hr, hkey⟩
    exact ⟨r, (List.mem_filter.mp hr).1, hkey⟩
  · rintro ⟨r, hr, hkey⟩
    refine ⟨r, List.mem_filter.mpr ⟨hr, ?_⟩, hkey⟩
    simp only [ne_eq, decide_not, Bool.not_eq_eq_eq_not, Bool.not_true,
      decide_eq_false_iff_not]
    rw [hkey]
    intro hc
    exact hq (Option.some.inj hc)

/-- Deduplicating the rows by their valid pair preserves valid-pair
membership. -/
theorem validPairs_dedupRows (rows : List Row) (q : Cell × Cell) :
    q ∈ validPairs (dedupRows rows) ↔ q ∈ validPairs rows := by
  induction rows using dedupRows.induct with
  | case1 => rw [dedupRows]
  | case2 r rest hkey ih =>
    rw [dedupRows]
    rw [hkey]
    unfold validPairs at ih ⊢
    rw [List.filterMap_cons, List.filterMap_cons, hkey]
    exact ih
  | case3 r rest p hkey ih =>
    rw [dedupRows]
    rw [hkey]
    unfold validPairs at ih ⊢
    rw [List.filterMap_cons, List.filterMap_cons, hkey]
    simp only [List.mem_cons]
    by_cases hqp : q = p
    · subst hqp; simp
    · simp only [hqp, false_or]
      exact ih.trans (validPairs_filter_ne rest p q hqp)

/-! ## Claim C7 -/

/-- C7.  In each of the two summary outputs, every row (the header row and
every data row) has exactly `2 + max_group_size` columns, where
`max_group_size` is the global maximum group size of that file; shorter
groups are right-padded with empty cells. -/
theorem summary_row_width (rows : List Row) (st gt : List (List Cell))
    (h : summarize_core rows = some (st, gt)) :
    (∀ r ∈ st, r.length = 2 + maxNeighborCount (validPairs rows)) ∧
    (∀ r ∈ gt, r.length = 2 + maxStrainCount (validPairs rows)) := by
  unfold summarize_core summarizeOfPairs at h
  split at h
  · cases h
  · rw [Option.some.injEq, Prod.mk.injEq] at h
    obtain ⟨hst, hgt⟩ := h
    constructor
    · intro r hr
      rw [← hst] at hr
      unfold strainTable at hr
      rcases List.mem_cons.mp hr with hhd | hdata
      · subst hhd
        simp only [strainHeaderRow, List.length_cons, List.length_map,
          List.length_range]
        omega
      · rw [List.mem_map] at hdata
        obtain ⟨s, hs, rfl⟩ := hdata
        have hle : (neighborsOfStrain (validPairs rows) s).length ≤
            maxNeighborCount (validPairs rows) := by
          unfold maxNeighborCount
          exact le_foldl_max
            (fun s => (neighborsOfStrain (validPairs rows) s).length) _ 0 s hs
        simp only [strainDataRow, List.length_cons, List.length_append,
          List.length_replicate]
        omega
    · intro r hr
      rw [← hgt] at hr
      unfold geneTable at hr
      rcases List.mem_cons.mp hr with hhd | hdata
      · subst hhd
        simp only [geneHeaderRow, List.length_cons, List.length_map,
          List.length_range]
        omega
      · rw [List.mem_map] at hdata
        obtain ⟨n, hn, rfl⟩ := hdata
        have hle : (strainsOfGene (validPairs rows) n).length ≤
            maxStrainCount (validPairs rows) := by
          unfold maxStrainCount
          exact le_foldl_max
            (fun n => (strainsOfGene (validPairs rows) n).length) _ 0 n hn
        simp only [geneDataRow, List.length_cons, List.length_append,
          List.length_replicate]
        omega

/-- C7 witness: the padding invariant at a concrete input with group
sizes 2 and 1. -/
theorem summary_row_width_witness :
    (∀ r ∈ (summarize_core exRows).getD ([], []) |>.1,
       r.length = 2 + maxNeighborCount (validPairs exRows)) ∧
    (∀ r ∈ (summarize_core exRows).getD ([], []) |>.2,
       r.length = 2 + maxStrainCount (validPairs exRows)) := by
  have h := summary_row_width exRows
    ((summarize_core exRows).getD ([], [])).1
    ((summarize_core exRows).getD ([], [])).2
    (by decide)
  exact h

/-! ## Claim C8 -/

/-- C8.  Duplicate records with the same `(goi_strain, neighbor_id)` pair
collapse to a single membership in both groupings: the summaries computed
from the input equal the summaries computed from the deduplicated input. -/
theorem summarize_dedup_invariant (rows : List Row) :
    summarize_core rows = summarize_core (dedupRows rows) := by
  unfold summarize_core
  exact summarizeOfPairs_congr (fun q => (validPairs_dedupRows rows q).symm)

/-! ## Claim C9 -/

/-- C9.  A row whose `goi_strain` or `neighbor_id` field is missing or
empty contributes a pair to neither grouping (first part); dropping such
a row from anywhere in the input leaves both summaries unchanged (second
part); an input of only such rows hits the empty-input short-circuit and
produces no output (third part). -/
theorem invalid_rows_dropped :
    (∀ r : Row, pairKey r = none ↔
       (r.goi_strain = none ∨ r.goi_strain = some [] ∨
        r.neighbor_id = none ∨ r.neighbor_id = some [])) ∧
    (∀ (pre post : List Row) (r : Row), pairKey r = none →
       summarize_core (pre ++ r :: post) = summarize_core (pre ++ post)) ∧
    (∀ rows : List Row, (∀ r ∈ rows, pairKey r = none) →
       summarize_core rows = none) := by
  refine ⟨?_, ?_, ?_⟩
  · rintro ⟨gs, ni⟩
    cases gs with
    | none => simp [pairKey, truthy]
    | some s =>
      cases ni with
      | none => simp [pairKey, truthy]
      | some n =>
        by_cases hs : s = []
        · subst hs; simp [pairKey, truthy]
        · by_cases hn : n = []
          · subst hn; simp [pairKey, truthy, hs]
          · simp [pairKey, truthy, hs, hn]
  · intro pre post r hr
    unfold summarize_core validPairs
    rw [List.filterMap_append, List.filterMap_append, List.filterMap_cons, hr]
  · intro rows hall
    have hnil : validPairs rows = [] := by
      unfold validPairs
      rw [List.filterMap_eq_nil_iff]
      exact hall
    unfold summarize_core
    rw [hnil]
    rfl

/-- C9 witness: a concrete empty-string row is invalid, removing it leaves
the summaries unchanged, and an input of only invalid rows yields no
output. -/
theorem invalid_rows_dropped_witness :
    pairKey exRowBad = none ∧
    summarize_core (exRows ++ exRowBad :: []) = summarize_core (exRows ++ []) ∧
    summarize_core [exRowBad, { goi_strain := none, neighbor_id := some "y".toList }] =
      none := by
  refine ⟨?_, ?_, ?_⟩
  · exact (invalid_rows_dropped.1 exRowBad).mpr (Or.inr (Or.inr (Or.inr rfl)))
  · exact invalid_rows_dropped.2.1 exRows [] exRowBad (by decide)
  · exact invalid_rows_dropped.2.2 _ (by decide)

/-! ## Claims C4 and C5: the neighbor finder -/

/-- All fields of the GOI and of the feature appear in the emitted record,
so the record determines both. -/
theorem mkRecord_inj {goi goi' : GOI} {g g' : Feature}
    (h : mkRecord goi g = mkRecord goi' g') : goi = goi' ∧ g = g' := by
  cases goi; cases goi'; cases g; cases g'
  simp only [mkRecord, NeighborRecord.mk.injEq] at h
  obtain ⟨h1, h2, h3, h4, h5, h6, h7, h8, h9, h10, h11⟩ := h
  constructor
  · rw [GOI.mk.injEq]
    exact ⟨h1, h2, h3, h4, h5⟩
  · rw [Feature.mk.injEq]
    exact ⟨h7, h8, h9, h10, h6, h11⟩

/-- C5.  No emitted record pairs a GOI with a feature whose coordinates
equal the GOI's own: the self-exclusion of lines 147–149 removes every
coordinate-matching feature. -/
theorem find_neighbors_never_self (gois : List GOI) (db : AnnIndex) (w : Int)
    (r : NeighborRecord) (hr : r ∈ find_neighbors gois db w) :
    ¬(r.neighbor_start = r.goi_start ∧ r.neighbor_stop = r.goi_stop) := by
  unfold find_neighbors at hr
  rw [List.mem_flatMap] at hr
  obtain ⟨goi, _, hmem⟩ := hr
  unfold neighborsFor at hmem
  cases hdb : lookupL db goi.strain with
  | none =>
    simp only [hdb] at hmem
    exact (List.not_mem_nil r hmem).elim
  | some sdb =>
    simp only [hdb] at hmem
    cases hc : lookupL sdb goi.contig with
    | none =>
      simp only [hc] at hmem
      exact (List.not_mem_nil r hmem).elim
    | some genes =>
      simp only [hc] at hmem
      rw [List.mem_map] at hmem
      obtain ⟨g, hg, rfl⟩ := hmem
      have hcond := (List.mem_filter.mp hg).2
      simp only [Bool.and_eq_true, Bool.not_eq_true', decide_eq_false_iff_not,
        decide_eq_true_eq] at hcond
      intro hcontra
      exact hcond.1 hcontra

/-- C5 witness: at a concrete index the emitted record for `exFeat` does
not carry the GOI's own coordinates. -/
theorem find_neighbors_never_self_witness :
    ¬((mkRecord exGoi exFeat).neighbor_start = (mkRecord exGoi exFeat).goi_start ∧
      (mkRecord exGoi exFeat).neighbor_stop = (mkRecord exGoi exFeat).goi_stop) :=
  find_neighbors_never_self [exGoi] exDb 100 (mkRecord exGoi exFeat) (by
    rw [show find_neighbors [exGoi] exDb 100 = [mkRecord exGoi exFeat] from by decide]
    exact List.mem_singleton_self _)

/-- C4 counterexample.  The claim's "reported iff its midpoint lies in the
closed window" fails for a feature coordinate-identical to the GOI: with a
resolvable strain and contig and the feature on that contig, its midpoint
lies in the window, yet nothing is reported. -/
theorem window_iff_fails_on_self_cex :
    find_neighbors [exGoi] exSelfDb 100 = [] ∧
    inWindow exGoi 100 exSelf ∧
    lookupL exSelfDb exGoi.strain = some [("c".toList, [exSelf])] ∧
    lookupL [("c".toList, [exSelf])] exGoi.contig = some [exSelf] := by
  refine ⟨by decide, by decide, by decide, by decide⟩

/-- C4 (amended).  For a GOI with resolvable strain and contig and a
feature on that contig whose `(start, end)` differs from the GOI's, the
feature is reported as that GOI's neighbor iff its midpoint
`(start + end) / 2` lies in the closed interval
`[goi_center - window_size, goi_center + window_size]` — regardless of
whether the feature's full extent overlaps the window. -/
theorem find_neighbors_center_iff (gois : List GOI) (db : AnnIndex) (w : Int)
    (goi : GOI) (sdb : ContigDb) (genes : List Feature) (g : Feature)
    (hgoi : goi ∈ gois) (hs : lookupL db goi.strain = some sdb)
    (hc : lookupL sdb goi.contig = some genes) (hg : g ∈ genes)
    (hne : ¬(g.start = goi.start ∧ g.stop = goi.stop)) :
    mkRecord goi g ∈ find_neighbors gois db w ↔ inWindow goi w g := by
  constructor
  · intro hmem
    unfold find_neighbors at hmem
    rw [List.mem_flatMap] at hmem
    obtain ⟨goi', _, hmem'⟩ := hmem
    unfold neighborsFor at hmem'
    cases hdb' : lookupL db goi'.strain with
    | none =>
      simp only [hdb'] at hmem'
      exact (List.not_mem_nil _ hmem').elim
    | some sdb' =>
      simp only [hdb'] at hmem'
      cases hc' : lookupL sdb' goi'.contig with
      | none =>
        simp only [hc'] at hmem'
        exact (List.not_mem_nil _ hmem').elim
      | some genes' =>
        simp only [hc'] at hmem'
        rw [List.mem_map] at hmem'
        obtain ⟨g', hg', heq⟩ := hmem'
        obtain ⟨hgoieq, hgeq⟩ := mkRecord_inj heq
        subst hgoieq
        subst hgeq
        rw [hdb'] at hs
        injection hs with hs
        subst hs
        rw [hc'] at hc
        injection hc with hc
        subst hc
        have hcond := (List.mem_filter.mp hg').2
        simp only [Bool.and_eq_true, Bool.not_eq_true', decide_eq_false_iff_not,
          decide_eq_true_eq] at hcond
        exact hcond.2
  · intro hw
    unfold find_neighbors
    rw [List.mem_flatMap]
    refine ⟨goi, hgoi, ?_⟩
    unfold neighborsFor
    simp only [hs, hc]
    rw [List.mem_map]
    refine ⟨g, List.mem_filter.mpr ⟨hg, ?_⟩, rfl⟩
    simp only [Bool.and_eq_true, Bool.not_eq_true', decide_eq_false_iff_not,
      decide_eq_true_eq]
    exact ⟨hne, hw⟩

/-- C4 witness: the iff at a concrete index, GOI and feature. -/
theorem find_neighbors_center_iff_witness :
    mkRecord exGoi exFeat ∈ find_neighbors [exGoi] exDb 100 ↔
      inWindow exGoi 100 exFeat :=
  find_neighbors_center_iff [exGoi] exDb 100 exGoi
    [("c".toList, [exSelf, exFeat])] [exSelf, exFeat] exFeat
    (List.mem_singleton_self _) (by decide) (by decide)
    (List.Mem.tail _ (List.Mem.head _)) (by decide)

/-! ## Claim C6: coordinate normalization in `parse_goi_fasta` -/

/-- C6.  Every header line matching the pattern stores a GOI whose start
is the minimum and whose end is the maximum of the two raw coordinates
(so `SubjectStart=20_SubjectEnd=10` stores 10–20), and every parsed GOI
satisfies `start ≤ end`. -/
theorem parse_goi_fasta_normalizes (lines : List (List Char)) (line : List Char)
    (st c d1 d2 : List Char) (hmem : line ∈ lines) (hgt : line.head? = some '>')
    (hmatch : searchHeader line = some (st, c, d1, d2)) :
    ({ strain := st, contig := c,
       start := min ((digitsToNat d1 : Nat) : Int) ((digitsToNat d2 : Nat) : Int),
       stop := max ((digitsToNat d1 : Nat) : Int) ((digitsToNat d2 : Nat) : Int),
       header := strip line } : GOI) ∈ parse_goi_fasta lines ∧
    ∀ g ∈ parse_goi_fasta lines, g.start ≤ g.stop := by
  constructor
  · unfold parse_goi_fasta
    rw [List.mem_filterMap]
    exact ⟨line, hmem, by rw [if_pos hgt, hmatch]⟩
  · intro g hg
    unfold parse_goi_fasta at hg
    rw [List.mem_filterMap] at hg
    obtain ⟨l', _, heq⟩ := hg
    by_cases h1 : l'.head? = some '>'
    · rw [if_pos h1] at heq
      cases hm : searchHeader l' with
      | none => rw [hm] at heq; cases heq
      | some q =>
        obtain ⟨st', c', d1', d2'⟩ := q
        rw [hm] at heq
        injection heq with heq
        rw [← heq]
        exact min_le_max
    · rw [if_neg h1] at heq
      cases heq

/-- C6 witness: the reversed-coordinate header from the spec's example
stores `start = 10, end = 20`. -/
theorem parse_goi_fasta_normalizes_witness :
    ({ strain := "s".toList, contig := "c".toList, start := 10, stop := 20,
       header := exHeaderLine } : GOI) ∈ parse_goi_fasta [exHeaderLine] ∧
    ∀ g ∈ parse_goi_fasta [exHeaderLine], g.start ≤ g.stop := by
  have h := parse_goi_fasta_normalizes [exHeaderLine] exHeaderLine
    "s".toList "c".toList "20".toList "10".toList
    (List.mem_singleton_self _) (by decide) (by decide)
  refine ⟨?_, h.2⟩
  have heqg : (GOI.mk "s".toList "c".toList 10 20 exHeaderLine : GOI) =
      GOI.mk "s".toList "c".toList
        (min ((digitsToNat "20".toList : Nat) : Int) ((digitsToNat "10".toList : Nat) : Int))
        (max ((digitsToNat "20".toList : Nat) : Int) ((digitsToNat "10".toList : Nat) : Int))
        (strip exHeaderLine) := by decide
  rw [heqg]
  exact h.1

/-! ## Claim C1: the annotation index builder -/

/-- Looking a key up after a dict assignment. -/
theorem lookupL_setStrain (db : AnnIndex) (k : List Char) (v : ContigDb)
    (s : List Char) :
    lookupL (setStrain db k v) s = if k = s then some v else lookupL db s := by
  induction db with
  | nil =>
    unfold setStrain lookupL
    by_cases hk : k = s <;> simp [hk, lookupL]
  | cons e rest ih =>
    obtain ⟨k', v'⟩ := e
    unfold setStrain
    by_cases hk : k' = k
    · rw [if_pos hk]
      subst hk
      unfold lookupL
      by_cases hs : k' = s <;> simp [hs]
    · rw [if_neg hk]
      unfold lookupL
      by_cases hs : k' = s
      · subst hs
        have : ¬ k = k' := fun hc => hk hc.symm
        simp [this]
      · simp [hs, ih]

/-- The walk loop retains, for each strain, exactly the parse of the last
matching `.gff` file, falling back to the initial accumulator. -/
theorem load_all_aux_lookup (s : List Char) :
    ∀ (walk : List WalkEntry) (db0 db : AnnIndex),
      load_all_aux walk db0 = .ok db →
      lookupL db s = (match lastGffFor walk s with
        | some content => (parse_gff content).toOption
        | none => lookupL db0 s) := by
  intro walk
  induction walk with
  | nil =>
    intro db0 db h
    injection h with h
    subst h
    rfl
  | cons e rest ih =>
    intro db0 db h
    unfold load_all_aux at h
    by_cases hgff : ".gff".toList.isSuffixOf e.fname
    · rw [if_pos hgff] at h
      cases hp : parse_gff e.content with
      | error l => rw [hp] at h; cases h
      | ok cdb =>
        rw [hp] at h
        have hrec := ih (setStrain db0 e.dir cdb) db h
        rw [hrec]
        cases hl : lastGffFor rest s with
        | some content => rw [lastGffFor, hl]
        | none =>
          rw [lastGffFor, hl]
          by_cases hd : e.dir = s
          · rw [if_pos ⟨hgff, hd⟩]
            show lookupL (setStrain db0 e.dir cdb) s = (parse_gff e.content).toOption
            rw [lookupL_setStrain, if_pos hd, hp]
            rfl
          · rw [if_neg (fun hc => hd hc.2), lookupL_setStrain, if_neg hd]
    · rw [if_neg hgff] at h
      have hrec := ih db0 db h
      rw [hrec]
      cases hl : lastGffFor rest s with
      | some content => rw [lastGffFor, hl]
      | none => rw [lastGffFor, hl, if_neg (fun hc => hgff hc.1)]

/-- C1 counterexample.  Two `.gff` files in the walk resolve to the same
strain `s`; the first file's only contig is `A`, the second's is `B`.  The
claim says both contig keys are present in the final index; in fact the
second assignment replaces the whole strain entry, so `A` is gone and only
`B` remains. -/
theorem load_annotations_overwrites_cex :
    (load_all_annotations exWalk).toOption.map (fun db =>
      (lookupL db "s".toList).map (fun cdb =>
        ((lookupL cdb "A".toList).isSome, (lookupL cdb "B".toList).isSome)))
    = some (some (false, true)) := by decide

/-- C1 (amended).  When two files of the walk resolve to the same strain
identifier, the later file's parse results replace the earlier entry
wholesale: for every strain the final index holds exactly the parse of the
last matching `.gff` file of the walk (and nothing for strains with no
matching file); contig keys that appear only in earlier files are
dropped. -/
theorem load_annotations_last_file_wins (walk : List WalkEntry) (db : AnnIndex)
    (s : List Char) (h : load_all_annotations walk = .ok db) :
    lookupL db s =
      (lastGffFor walk s).bind (fun content => (parse_gff content).toOption) := by
  have hrec := load_all_aux_lookup s walk [] db h
  rw [hrec]
  cases lastGffFor walk s with
  | none => rfl
  | some content => rfl

/-- C1 witness: at the two-file walk the final entry for strain `s` is
exactly the parse of the second file. -/
theorem load_annotations_last_file_wins_witness :
    lookupL exWalkDb "s".toList =
      (lastGffFor exWalk "s".toList).bind
        (fun content => (parse_gff content).toOption) :=
  load_annotations_last_file_wins exWalk exWalkDb "s".toList (by decide)

/-! ## Claim C2: per-record error containment in `parse_gff` -/

/-- A comment, blank, or too-short line is skipped by the loop body. -/
theorem gffLineAct_skip_of (line : List Char)
    (h : line.head? = some '#' ∨ strip line = [] ∨
      (splitOnChar '\t' (strip line)).length < 9) :
    gffLineAct line = .skip := by
  unfold gffLineAct
  by_cases h1 : line.head? = some '#' ∨ strip line = []
  · rw [if_pos h1]
  · rw [if_neg h1]
    dsimp only
    have h9 : (splitOnChar '\t' (strip line)).length < 9 := by
      rcases h with h | h | h
      · exact absurd (Or.inl h) h1
      · exact absurd (Or.inr h) h1
      · exact h
    rw [if_pos h9]

/-- A skipped line can be removed from anywhere in the file without
changing the parse. -/
theorem parse_gff_aux_skip (line : List Char) (hskip : gffLineAct line = .skip) :
    ∀ (pre post : List (List Char)) (db : ContigDb),
      parse_gff_aux (pre ++ line :: post) db = parse_gff_aux (pre ++ post) db := by
  intro pre
  induction pre with
  | nil =>
    intro post db
    show parse_gff_aux (line :: post) db = parse_gff_aux post db
    rw [parse_gff_aux, hskip]
  | cons p pre ih =>
    intro post db
    simp only [List.cons_append]
    simp only [parse_gff_aux]
    cases hact : gffLineAct p with
    | skip => exact ih post db
    | add c f => exact ih post (addFeature db c f)
    | err => rfl

/-- The loop succeeds from any accumulator iff no line raises. -/
theorem parse_gff_aux_ok_iff :
    ∀ (lines : List (List Char)) (db : ContigDb),
      (∃ db', parse_gff_aux lines db = .ok db') ↔
        ∀ line ∈ lines, gffLineAct line ≠ .err := by
  intro lines
  induction lines with
  | nil =>
    intro db
    constructor
    · intro _ line hline; cases hline
    · intro _; exact ⟨db, rfl⟩
  | cons l rest ih =>
    intro db
    simp only [parse_gff_aux]
    cases hact : gffLineAct l with
    | skip =>
      rw [ih db]
      constructor
      · intro hall line hline
        rcases List.mem_cons.mp hline with rfl | hline
        · rw [hact]; intro hc; cases hc
        · exact hall line hline
      · intro hall line hline
        exact hall line (List.mem_cons_of_mem _ hline)
    | add c f =>
      rw [ih (addFeature db c f)]
      constructor
      · intro hall line hline
        rcases List.mem_cons.mp hline with rfl | hline
        · rw [hact]; intro hc; cases hc
        · exact hall line hline
      · intro hall line hline
        exact hall line (List.mem_cons_of_mem _ hline)
    | err =>
      constructor
      · rintro ⟨db', hc⟩; cases hc
      · intro hall
        exact absurd hact (hall l (List.mem_cons_self l rest))

/-- C2 counterexample.  A data line with nine tab-separated fields whose
start column is not an integer makes `parse_gff` raise (the `int()` call
has no handler), contradicting "skips or sentinel-fills ... and does not
raise". -/
theorem parse_gff_nonint_raises_cex :
    parse_gff [exBadIntLine] = .error exBadIntLine ∧
    (splitOnChar '\t' (strip exBadIntLine)).length = 9 := by
  exact ⟨by decide, by decide⟩

/-- C2 (amended).  Per-record containment holds for the cases the code
guards: a comment, blank, or too-few-columns line is silently skipped and
can be removed without changing the parse (first part), and `parse_gff`
returns normally exactly when no line raises (second part); but a
non-comment, non-blank line with at least 9 fields whose feature type is
`gene` or `CDS` and whose start or end column is not an integer raises an
uncaught exception, aborting the stage (third part: the exact
characterization of the raising lines). -/
theorem parse_gff_containment_amended :
    (∀ (pre post : List (List Char)) (line : List Char),
       (line.head? = some '#' ∨ strip line = [] ∨
         (splitOnChar '\t' (strip line)).length < 9) →
       parse_gff (pre ++ line :: post) = parse_gff (pre ++ post)) ∧
    (∀ lines : List (List Char),
       (∃ db, parse_gff lines = .ok db) ↔ ∀ line ∈ lines, gffLineAct line ≠ .err) ∧
    (∀ line : List Char, gffLineAct line = .err ↔
       (¬ line.head? = some '#' ∧ strip line ≠ [] ∧
        9 ≤ (splitOnChar '\t' (strip line)).length ∧
        ((splitOnChar '\t' (strip line)).getD 2 [] = "gene".toList ∨
         (splitOnChar '\t' (strip line)).getD 2 [] = "CDS".toList) ∧
        (parseInt? ((splitOnChar '\t' (strip line)).getD 3 []) = none ∨
         parseInt? ((splitOnChar '\t' (strip line)).getD 4 []) = none))) := by
  refine ⟨?_, ?_, ?_⟩
  · intro pre post line h
    exact parse_gff_aux_skip line (gffLineAct_skip_of line h) pre post []
  · intro lines
    exact parse_gff_aux_ok_iff lines []
  · intro line
    unfold gffLineAct
    by_cases h1 : line.head? = some '#' ∨ strip line = []
    · rw [if_pos h1]
      constructor
      · intro hc; cases hc
      · rintro ⟨hA, hB, _⟩
        rcases h1 with h1 | h1
        · exact absurd h1 hA
        · exact absurd h1 hB
    · rw [if_neg h1]
      dsimp only
      rw [not_or] at h1
      obtain ⟨hA, hB⟩ := h1
      by_cases h2 : (splitOnChar '\t' (strip line)).length < 9
      · rw [if_pos h2]
        constructor
        · intro hc; cases hc
        · rintro ⟨_, _, h9, _⟩; omega
      · rw [if_neg h2]
        by_cases h3 : (splitOnChar '\t' (strip line)).getD 2 [] = "gene".toList ∨
            (splitOnChar '\t' (strip line)).getD 2 [] = "CDS".toList
        · rw [if_pos h3]
          cases hp3 : parseInt? ((splitOnChar '\t' (strip line)).getD 3 []) with
          | none =>
            cases hp4 : parseInt? ((splitOnChar '\t' (strip line)).getD 4 []) with
            | none =>
              constructor
              · intro _; exact ⟨hA, hB, Nat.le_of_not_lt h2, h3, Or.inl rfl⟩
              · intro _; rfl
            | some e4 =>
              constructor
              · intro _; exact ⟨hA, hB, Nat.le_of_not_lt h2, h3, Or.inl rfl⟩
              · intro _; rfl
          | some s4 =>
            cases hp4 : parseInt? ((splitOnChar '\t' (strip line)).getD 4 []) with
            | none =>
              constructor
              · intro _; exact ⟨hA, hB, Nat.le_of_not_lt h2, h3, Or.inr rfl⟩
              · intro _; rfl
            | some e4 =>
              constructor
              · intro hc; cases hc
              · rintro ⟨_, _, _, _, hbad | hbad⟩ <;> cases hbad
        · rw [if_neg h3]
          constructor
          · intro hc; cases hc
          · rintro ⟨_, _, _, h3', _⟩
            exact absurd h3' h3

/-- C2 witness: a short row is removable without effect on the parse, and
the concrete bad-integer line is characterized as raising. -/
theorem parse_gff_containment_amended_witness :
    parse_gff ([] ++ exShortLine :: []) = parse_gff ([] ++ []) ∧
    gffLineAct exBadIntLine = .err :=
  ⟨parse_gff_containment_amended.1 [] [] exShortLine (by decide),
   (parse_gff_containment_amended.2.2 exBadIntLine).mpr (by decide)⟩

/-! ## Claim C3: behaviour on a missing top-level input file -/

/-- C3 counterexample.  A missing GOI FASTA file makes stage 1 end in an
unhandled fault (the `open` of line 20 has no handler anywhere on the
stack), not in a clean abort. -/
theorem stage1_missing_fasta_cex :
    stage1_run none [] 0 = .unhandledFault ∧
    stage1_run none [] 0 ≠ .abortedCleanly := by
  exact ⟨rfl, by decide⟩

/-- C3 (amended).  A missing neighbor table makes stage 2 abort cleanly
with a diagnostic (`except FileNotFoundError`, lines 33–38); a missing
GOI FASTA crashes stage 1 with an unhandled exception, for any annotation
walk and window size. -/
theorem missing_input_outcome_amended :
    (∀ (walk : List WalkEntry) (w : Int),
       stage1_run none walk w = .unhandledFault) ∧
    stage2_run none = .abortedCleanly :=
  ⟨fun _ _ => rfl, rfl⟩

/-! ## Claim C10: attribute extraction in `parse_gff` -/

/-- `splitOnTokGo` does not depend on the fuel once it covers the list. -/
theorem splitOnTokGo_fuel (t0 : Char) (ts : List Char) :
    ∀ (f1 : Nat) (l : List Char) (f2 : Nat), l.length ≤ f1 → l.length ≤ f2 →
      splitOnTokGo t0 ts f1 l = splitOnTokGo t0 ts f2 l := by
  intro f1
  induction f1 with
  | zero =>
    intro l f2 h1 _
    have hl : l = [] := List.eq_nil_of_length_eq_zero (Nat.le_zero.mp h1)
    subst hl
    cases f2 <;> rfl
  | succ f ih =>
    intro l f2 h1 h2
    cases l with
    | nil => cases f2 <;> rfl
    | cons c rest =>
      cases f2 with
      | zero => exact absurd h2 (by simp)
      | succ f2' =>
        simp only [splitOnTokGo]
        by_cases hpre : (t0 :: ts).isPrefixOf (c :: rest)
        · rw [if_pos hpre, if_pos hpre]
          have hdrop : ((c :: rest).drop (ts.length + 1)).length ≤ f := by
            simp only [List.length_drop, List.length_cons]
            simp only [List.length_cons] at h1
            omega
          have hdrop2 : ((c :: rest).drop (ts.length + 1)).length ≤ f2' := by
            simp only [List.length_drop, List.length_cons]
            simp only [List.length_cons] at h2
            omega
          rw [ih _ f2' hdrop hdrop2]
        · rw [if_neg hpre, if_neg hpre]
          have hr : rest.length ≤ f := by
            simp only [List.length_cons] at h1; omega
          have hr2 : rest.length ≤ f2' := by
            simp only [List.length_cons] at h2; omega
          rw [ih rest f2' hr hr2]

/-- Structure of Python's `split` in terms of the first occurrence of the
token: no occurrence gives the singleton, one occurrence peels off the
text before it and recurses after it. -/
theorem splitOnTokGo_spec (t0 : Char) (ts : List Char) :
    ∀ (fuel : Nat) (l : List Char), l.length ≤ fuel →
      splitOnTokGo t0 ts fuel l =
        (match afterFirstTok t0 ts l with
         | none => [l]
         | some r => beforeFirstTok t0 ts l :: splitOnTok t0 ts r) := by
  intro fuel
  induction fuel with
  | zero =>
    intro l h
    have hl : l = [] := List.eq_nil_of_length_eq_zero (Nat.le_zero.mp h)
    subst hl
    rfl
  | succ f ih =>
    intro l h
    cases l with
    | nil => rfl
    | cons c rest =>
      simp only [splitOnTokGo, afterFirstTok, beforeFirstTok]
      by_cases hpre : (t0 :: ts).isPrefixOf (c :: rest)
      · simp only [if_pos hpre]
        congr 1
        unfold splitOnTok
        apply splitOnTokGo_fuel
        · simp only [List.length_drop, List.length_cons]
          simp only [List.length_cons] at h
          omega
        · exact Nat.le_refl _
      · simp only [if_neg hpre]
        have hr : rest.length ≤ f := by
          simp only [List.length_cons] at h; omega
        rw [ih rest hr]
        cases hra : afterFirstTok t0 ts rest with
        | none => rfl
        | some r => rfl

/-- Python's `split` never returns an empty list. -/
theorem splitOnTokGo_ne_nil (t0 : Char) (ts : List Char) (fuel : Nat)
    (l : List Char) : splitOnTokGo t0 ts fuel l ≠ [] := by
  cases l with
  | nil => cases fuel <;> simp [splitOnTokGo]
  | cons c rest =>
    cases fuel with
    | zero => simp [splitOnTokGo]
    | succ f =>
      simp only [splitOnTokGo]
      by_cases hpre : (t0 :: ts).isPrefixOf (c :: rest)
      · simp [hpre]
      · rw [if_neg hpre]
        cases splitOnTokGo t0 ts f rest <;> simp

/-- When the token does not occur, nothing is cut off. -/
theorem beforeFirstTok_of_none (t0 : Char) (ts : List Char) :
    ∀ l, afterFirstTok t0 ts l = none → beforeFirstTok t0 ts l = l := by
  intro l
  induction l with
  | nil => intro _; rfl
  | cons c rest ih =>
    intro h
    rw [afterFirstTok] at h
    rw [beforeFirstTok]
    by_cases hpre : (t0 :: ts).isPrefixOf (c :: rest)
    · rw [if_pos hpre] at h; cases h
    · rw [if_neg hpre] at h
      rw [if_neg hpre, ih h]

/-- C10 counterexample.  For the attributes field `ID=aID=b` the code's
`split("ID=")[1].split(";")[0]` yields `a`, while "text following the
first occurrence of `ID=` up to the next `;` or end of field" is `aID=b`;
the full parser stores `a` as the feature id. -/
theorem attr_extract_substring_cex :
    extractAttr 'I' "D=".toList exAttrField = "a".toList ∧
    claimedAttrExtract 'I' "D=".toList exAttrField = "aID=b".toList ∧
    "a".toList ≠ "aID=b".toList ∧
    parse_gff [exAttrLine] = .ok [("c".toList,
      [{ ftype := "gene".toList, start := 1, stop := 10, strand := "+".toList,
         id := "a".toList, product := "N/A".toList }])] := by
  exact ⟨by decide, by decide, by decide, by decide⟩

/-- C10 (amended).  When the token occurs in the attributes field, the
extracted value is the text following the FIRST occurrence, truncated at
the next occurrence of the token (the segment between the first and
second occurrences), and then truncated at the first `;`; matching is by
substring, so an occurrence inside a longer key such as `Parent_ID=`
counts. -/
theorem attr_extract_between_occurrences (t0 : Char) (ts attrs r : List Char)
    (h : afterFirstTok t0 ts attrs = some r) :
    extractAttr t0 ts attrs =
      (splitOnChar ';' (beforeFirstTok t0 ts r)).headD [] := by
  unfold extractAttr splitOnTok
  have hspec0 := splitOnTokGo_spec t0 ts attrs.length attrs (Nat.le_refl _)
  simp only [h] at hspec0
  rw [hspec0]
  cases hsr : splitOnTok t0 ts r with
  | nil => exact absurd hsr (by unfold splitOnTok; exact splitOnTokGo_ne_nil t0 ts _ r)
  | cons h2 t2 =>
    have hspec := splitOnTokGo_spec t0 ts r.length r (Nat.le_refl _)
    cases har : afterFirstTok t0 ts r with
    | none =>
      rw [har] at hspec
      unfold splitOnTok at hsr
      rw [hspec] at hsr
      injection hsr with e1 _
      subst e1
      rw [beforeFirstTok_of_none t0 ts r har]
    | some r2 =>
      rw [har] at hspec
      unfold splitOnTok at hsr
      rw [hspec] at hsr
      injection hsr with e1 _
      subst e1
      rfl

/-- C10 witness: the amended description evaluated at the concrete field
`ID=aID=b`. -/
theorem attr_extract_between_occurrences_witness :
    extractAttr 'I' "D=".toList exAttrField =
      (splitOnChar ';' (beforeFirstTok 'I' "D=".toList "aID=b".toList)).headD [] :=
  attr_extract_between_occurrences 'I' "D=".toList exAttrField "aID=b".toList
    (by decide)

end UdSearch
